import Mathlib

/-!
A shallow embedding of the release-lifecycle and policy-compliance core of
the batzenca key-management package (files `batzenca/database/releases.py`,
`batzenca/database/keys.py`, `paleca/policies.py`), together with theorems
settling the specification claims about it.

Modelling conventions:
* Dates are integers (days); `datetime.date.today()` becomes `Env.today`,
  and `today + timedelta(days = n)` becomes `today + n`.
* The external GnuPG backend (module `gnupg`, not part of the core sources)
  is an explicit environment record `Env` of the capability functions the
  core calls (`key_okay`, `key_expires`, `key_min_len`, `key_pubkey_algos`,
  `key_any_uid_is_signed_by`, and the algorithm-name tables
  `str_to_alg` / `alg_to_str`).
* Python exceptions become `Except Err`; each `Err` constructor records the
  Python exception class raised at that program point.
* Persistence: an entity's SQLAlchemy `id` column is `Option Nat`
  (`none` = not committed yet).  For a persisted release the database rows
  of `releasekeyassociations` are exactly mirrored by its association
  list, so the SQL queries of `active_keys`, `__contains__` and
  `_get_assoc` are evaluated against that list.
* `Peer.from_key` (file `peers.py`, outside the modelled core) returns the
  key's owning peer; it is modelled as the key's `peer` reference.
-/

/-- A peer (owner identity); only its database id matters to the modelled
code paths. -/
structure Peer where
  id : Option Nat
  deriving DecidableEq

/-- `Key` (`keys.py`): database id, the PGP key id `kid` (modelled as a
number), and the owning-peer reference (`peer` relationship /
`peer_id` column). -/
structure KeyRec where
  id : Option Nat
  kid : Nat
  peer : Option Peer
  deriving DecidableEq

/-- The `Key.peer_id` foreign-key column: the id of the related peer. -/
def KeyRec.peer_id (k : KeyRec) : Option Nat :=
  k.peer.bind Peer.id

/-- The Python exception classes raised by the modelled code paths. -/
inductive Err where
  /-- `TypeError` (e.g. iterating over `None`). -/
  | typeError
  /-- `ValueError: Key ... has no peer associated`. -/
  | valueNoPeer
  /-- `ValueError: Peer ... already has an active key in this release`. -/
  | valuePeerActive
  /-- `ValueError: Key ... is not in release ...`. -/
  | valueNotInRelease
  /-- `ValueError` from `list.index` on a missing element. -/
  | valueNotFound
  /-- `RuntimeError: the object was not committed to the database yet`. -/
  | runtimeUnpersisted
  /-- `RuntimeError: ... database is in an inconsistent state`. -/
  | runtimeInconsistent
  /-- `AttributeError` (attribute access on `None`). -/
  | attributeError
  /-- `KeyError` (dictionary lookup miss). -/
  | keyError
  deriving DecidableEq

/-- Python strings are modelled as their character lists (the built-in
`String` type is opaque to kernel reduction). -/
abbrev PyStr := List Char

/-- Python's `str.split(sep)` with an explicit one-character separator: on
the empty string it returns `[""]`, and every separator occurrence opens a
new (possibly empty) part. -/
def pySplit (sep : Char) : PyStr → List PyStr
  | [] => [[]]
  | c :: rest =>
      if c = sep then [] :: pySplit sep rest
      else
        match pySplit sep rest with
        | [] => [[c]]
        | h :: t => (c :: h) :: t

/-- The GnuPG backend capability interface consumed by the core, plus the
current date.  `str_to_alg` / `alg_to_str` are the `gpgobj` tables mapping
algorithm names to pubkey-algorithm identifiers and back; a miss is a
Python `KeyError`, hence `Option`. -/
structure Env where
  today : Int
  key_okay : Nat → Bool
  key_expires : Nat → Option Int
  key_min_len : Nat → Int
  key_pubkey_algos : Nat → List Nat
  key_any_uid_is_signed_by : Nat → Nat → Bool
  str_to_alg : PyStr → Option Nat
  alg_to_str : Nat → Option PyStr

/-- `Key.__nonzero__`: the key has usable signing and encryption subkeys. -/
def KeyRec.okay (env : Env) (k : KeyRec) : Bool :=
  env.key_okay k.kid

/-- `Key.expires()`. -/
def KeyRec.expires (env : Env) (k : KeyRec) : Option Int :=
  env.key_expires k.kid

/-- `Key.is_signed_by(signer)`. -/
def KeyRec.is_signed_by (env : Env) (k : KeyRec) (signer : KeyRec) : Bool :=
  env.key_any_uid_is_signed_by k.kid signer.kid

/-- `Policy` (`policies.py`): CA key, minimum key length, maximum key
lifespan in days, and the comma-joined allowed-algorithm string stored in
the `algorithms_str` column. -/
structure Policy where
  ca : KeyRec
  key_len : Int
  key_lifespan : Int
  algorithms_str : PyStr
  deriving DecidableEq

/-- The name translation loop of `Policy.__init__`: each requested
algorithm is looked up in `gpgobj.alg_to_str` (a miss is a `ValueError`). -/
def alg_names (env : Env) : List Nat → Except Err (List PyStr)
  | [] => .ok []
  | alg :: rest =>
      match env.alg_to_str alg with
      | none => .error Err.valueNotFound
      | some s => (alg_names env rest).map (fun l => s :: l)

/-- The algorithm-string construction of `Policy.__init__`: the translated
names are comma-joined into the `algorithms_str` column. -/
def Policy.mk_algorithms_str (env : Env) (algorithms : List Nat) :
    Except Err PyStr :=
  (alg_names env algorithms).map (List.intercalate [','])

/-- The lookup loop of `Policy.algorithms`: translate each name through
`gpgobj.str_to_alg`, collecting a set; a miss raises `KeyError`. -/
def str_algs (env : Env) : List PyStr → Except Err (Finset Nat)
  | [] => .ok ∅
  | e :: rest =>
      match env.str_to_alg e with
      | none => .error Err.keyError
      | some a => (str_algs env rest).map (fun s => insert a s)

/-- `Policy.algorithms`: split `algorithms_str` on commas and translate
each part through `gpgobj.str_to_alg`.  Note `"".split(",") == [""]` in
Python, which `pySplit` mirrors, so an empty column raises `KeyError`
unless `""` is a known algorithm name. -/
def Policy.algorithms (env : Env) (p : Policy) : Except Err (Finset Nat) :=
  str_algs env (pySplit ',' p.algorithms_str)

/-- `Policy.check_length`: fails when the backend-reported minimum key
length is below the policy's minimum. -/
def Policy.check_length (env : Env) (p : Policy) (k : KeyRec) : Bool :=
  !(env.key_min_len k.kid < p.key_len)

/-- `Policy.check_algorithms`: computes the key's algorithm set and the
policy's allowed set (which may raise `KeyError`), passes unconditionally
when the allowed set is empty, and otherwise checks the subset relation. -/
def Policy.check_algorithms (env : Env) (p : Policy) (k : KeyRec) :
    Except Err Bool :=
  let key_algorithms : Finset Nat := (env.key_pubkey_algos k.kid).toFinset
  match p.algorithms env with
  | .error e => .error e
  | .ok algorithms =>
      if algorithms = ∅ then .ok true
      else .ok (decide (key_algorithms ⊆ algorithms))

/-- `Policy.check_expiration`: a key with no expiration date fails iff the
policy mandates expiry (`key_lifespan > 0`); otherwise the else-branch
compares `today + key_lifespan` with the key's expiration date.  In the
source (Python 2) `max_expiry < None` is `False`, so a non-expiring key
reaching the else-branch passes. -/
def Policy.check_expiration (env : Env) (p : Policy) (k : KeyRec) : Bool :=
  match k.expires env with
  | none => !(p.key_lifespan > 0)
  | some d =>
      let max_expiry := env.today + p.key_lifespan
      !(max_expiry < d)

/-- `Policy.check_ca_signature`: some UID of the key carries a signature by
the policy's CA key. -/
def Policy.check_ca_signature (env : Env) (p : Policy) (k : KeyRec) : Bool :=
  k.is_signed_by env p.ca

/-- `Policy.check`: the non-short-circuiting conjunction (`ret &= ...`) of
the four sub-checks, the CA check only when requested.  A `KeyError`
escaping `check_algorithms` propagates. -/
def Policy.check (env : Env) (p : Policy) (k : KeyRec)
    (check_ca_signature : Bool) : Except Err Bool :=
  let r1 := p.check_length env k
  match p.check_algorithms env k with
  | .error e => .error e
  | .ok r2 =>
      let r3 := p.check_expiration env k
      let r4 := if check_ca_signature then p.check_ca_signature env k else true
      .ok (r1 && r2 && r3 && r4)

/-- `ReleaseKeyAssociation`: the join entity for a (release, key) pair,
with its `is_active` and `policy_exception` booleans.  The constructor
defaults are `active=True`, `policy_exception=False`. -/
structure Assoc where
  key : KeyRec
  is_active : Bool
  policy_exception : Bool
  deriving DecidableEq

/-- `Release`: database id, effective date, governing policy, and its
`key_associations` list.  For a persisted release the association list
mirrors the `releasekeyassociations` rows with `right_id = id`, so the
SQL queries of the source are evaluated against it.  The back-reference
to the mailing list is broken up: operations that need the mailing
list's date-ordered `releases` sequence receive it as a parameter. -/
structure Release where
  id : Option Nat
  date : Int
  policy : Policy
  key_associations : List Assoc
  deriving DecidableEq

/-- A mailing list as far as `Release.__init__` consults it: its default
policy. -/
structure MailingList where
  policy : Policy

/-- `Release.__init__`: the `inactive_keys` parameter defaults to `None`,
and the constructor iterates over it unconditionally, so passing no
inactive-key list raises `TypeError`; `date=None` becomes today and
`policy=None` becomes the mailing list's policy. -/
def Release.init (ml : MailingList) (date : Option Int) (env : Env)
    (active_keys : List KeyRec) (inactive_keys : Option (List KeyRec))
    (policy : Option Policy) : Except Err Release :=
  match inactive_keys with
  | none => .error Err.typeError
  | some iks =>
      .ok { id := none
            date := date.getD env.today
            policy := policy.getD ml.policy
            key_associations :=
              active_keys.map
                (fun k => { key := k, is_active := true, policy_exception := false })
              ++ iks.map
                (fun k => { key := k, is_active := false, policy_exception := false }) }

/-- The `active_keys` query for a persisted release (`releases.py` line
214): the keys of the active association rows. -/
def Release.active_keys (r : Release) : List KeyRec :=
  (r.key_associations.filter (fun a => a.is_active)).map Assoc.key

/-- The `inactive_keys` property (`releases.py` lines 216-221): both the
unpersisted and the persisted branch produce the keys of the inactive
associations. -/
def Release.inactive_keys (r : Release) : List KeyRec :=
  (r.key_associations.filter (fun a => !a.is_active)).map Assoc.key

/-- A Python value that is either a `Key` or a `ReleaseKeyAssociation`;
needed because the unpersisted branch of the `active_keys` property
returns association objects where the persisted branch returns keys. -/
inductive Entity where
  | key (k : KeyRec)
  | assoc (a : Assoc)
  deriving DecidableEq

/-- The `active_keys` property (`releases.py` lines 209-214) with its
element type made explicit: the unpersisted branch
`[assoc for assoc in self.key_associations if assoc.is_active]` returns
the association objects themselves; the persisted branch queries keys. -/
def Release.active_keys_raw (r : Release) : List Entity :=
  match r.id with
  | none => (r.key_associations.filter (fun a => a.is_active)).map Entity.assoc
  | some _ => r.active_keys.map Entity.key

/-- The `inactive_keys` property with the same element-type bookkeeping:
both branches return keys (`assoc.key` in the unpersisted branch). -/
def Release.inactive_keys_raw (r : Release) : List Entity :=
  match r.id with
  | none =>
      (r.key_associations.filter (fun a => !a.is_active)).map
        (fun a => Entity.key a.key)
  | some _ => r.inactive_keys.map Entity.key

/-- The five sets returned by `Release.diff`. -/
structure DiffResult where
  keys_in : Finset KeyRec
  keys_out : Finset KeyRec
  peers_joined : Finset (Option Peer)
  peers_changed : Finset (Option Peer)
  peers_left : Finset (Option Peer)
  deriving DecidableEq

/-- `Release.diff(other)` (`releases.py` lines 139-159), for persisted
releases (so `active_keys` yields keys).  `Peer.from_key` is modelled as
the owning-peer reference; the source computes `peers_prev` from
`other.active_keys` (line 149), not from `keys_prev`. -/
def Release.diff (self other : Release) : DiffResult :=
  let keys_prev : Finset KeyRec := (other.active_keys ++ self.inactive_keys).toFinset
  let keys_curr : Finset KeyRec := self.active_keys.toFinset
  let keys_out := keys_prev \ keys_curr
  let keys_in := keys_curr \ keys_prev
  let peers_prev : Finset (Option Peer) :=
    (other.active_keys.map KeyRec.peer).toFinset
  let peers_curr := keys_curr.image KeyRec.peer
  let peers_in := keys_in.image KeyRec.peer
  let peers_out := keys_out.image KeyRec.peer
  { keys_in := keys_in
    keys_out := keys_out
    peers_joined := peers_curr \ peers_prev
    peers_changed := peers_in ∩ peers_out
    peers_left := peers_prev \ peers_curr }

/-- The peer branch of `Release.__contains__` (`releases.py` lines
297-327): both the release and the queried peer must be persisted; the
query counts active association rows of this release whose key's
`peer_id` equals the peer's id; zero rows means `False`, one means
`True`, more is an inconsistent-database `RuntimeError`. -/
def Release.contains_peer (r : Release) (p : Peer) : Except Err Bool :=
  match r.id with
  | none => .error Err.runtimeUnpersisted
  | some _ =>
      match p.id with
      | none => .error Err.runtimeUnpersisted
      | some pid =>
          let c :=
            (r.key_associations.filter
              (fun a => a.is_active && a.key.peer_id == some pid)).length
          if c = 0 then .ok false
          else if c = 1 then .ok true
          else .error Err.runtimeInconsistent

/-- `Release.add_key(key, active, check)` (`releases.py` lines 283-295):
a key without a peer is a `ValueError`; for an active addition the
membership test `key.peer in self` runs (raising on unpersisted
entities); when `check and active`, `Policy.check` runs for its warnings
only, but an exception escaping it (the `KeyError` of
`Policy.algorithms`) propagates; finally the new association is
appended. -/
def Release.add_key (env : Env) (r : Release) (k : KeyRec)
    (active check : Bool) : Except Err Release :=
  match k.peer with
  | none => .error Err.valueNoPeer
  | some p =>
      let append : Except Err Release :=
        match (if check && active then (r.policy.check env k true).map (fun _ => ()) else .ok ()) with
        | .error e => .error e
        | .ok _ =>
            .ok { r with key_associations :=
                    r.key_associations ++
                      [{ key := k, is_active := active, policy_exception := false }] }
      if active then
        match r.contains_peer p with
        | .error e => .error e
        | .ok true => .error Err.valuePeerActive
        | .ok false => append
      else append

/-- `Release._get_assoc(key)` (`releases.py` lines 253-266): with an
unpersisted key or release, an identity scan of `key_associations`;
otherwise the row query by `(left_id, right_id)`, raising on zero rows
(`ValueError`) or several (`RuntimeError`). -/
def Release._get_assoc (r : Release) (k : KeyRec) : Except Err Assoc :=
  if k.id = none ∨ r.id = none then
    match r.key_associations.find? (fun a => a.key == k) with
    | some a => .ok a
    | none => .error Err.valueNotInRelease
  else
    match r.key_associations.filter (fun a => a.key.id == k.id) with
    | [] => .error Err.valueNotInRelease
    | [a] => .ok a
    | _ :: _ :: _ => .error Err.runtimeInconsistent

/-- `Release.deactivate_invalid` (`releases.py` lines 223-229): every
active association whose key fails `Key.__nonzero__` or is not signed by
the policy's CA key is deactivated; the `policy_exception` flag is not
consulted. -/
def Release.deactivate_invalid (env : Env) (r : Release) : Release :=
  { r with key_associations :=
      r.key_associations.map (fun a =>
        if a.is_active then
          if !(a.key.okay env) then { a with is_active := false }
          else if !(a.key.is_signed_by env r.policy.ca) then
            { a with is_active := false }
          else a
        else a) }

/-- A Python `int`-or-`bool` argument, as accepted by
`delete_old_inactive_keys(releasecount)`. -/
inductive PyNum where
  | pybool (b : Bool)
  | pyint (n : Int)
  deriving DecidableEq

/-- Python truthiness of a `PyNum` (`False` and `0` are falsy). -/
def PyNum.truthy : PyNum → Bool
  | .pybool b => b
  | .pyint n => n != 0

/-- `Release.prev` (`releases.py` lines 329-335) evaluated against the
mailing list's date-ordered `releases` sequence: the element before this
release's position, or `None` at position 0.  `list.index` on an absent
element is a `ValueError`. -/
def Release.prev (releases : List Release) (self : Release) :
    Except Err (Option Release) :=
  match releases.indexOf? self with
  | none => .error Err.valueNotFound
  | some idx => .ok (if idx > 0 then releases.get? (idx - 1) else none)

/-- The walk `for i in range(releasecount): old_release = old_release.prev`
of `delete_old_inactive_keys`: attribute access on `None` raises
`AttributeError`. -/
def Release.walk_prev (releases : List Release) :
    Nat → Option Release → Except Err (Option Release)
  | 0, r => .ok r
  | n + 1, r =>
      match r with
      | none => .error Err.attributeError
      | some rel =>
          match rel.prev releases with
          | .error e => .error e
          | .ok r2 => Release.walk_prev releases n r2

/-- The deletion loop of `delete_old_inactive_keys`: for each listed key,
`_get_assoc` and removal of that association (`list.remove` drops the
first equal element; the storage row is deleted alongside). -/
def Release.delete_assocs (r : Release) : List KeyRec → Except Err Release
  | [] => .ok r
  | k :: ks =>
      match r._get_assoc k with
      | .error e => .error e
      | .ok a =>
          Release.delete_assocs
            { r with key_associations := r.key_associations.erase a } ks

/-- `Release.delete_old_inactive_keys(releasecount)` (`releases.py` lines
231-250): a falsy count is a no-op; the literal `True` means depth 5;
then the walk to the release `releasecount` predecessors back, whose
result `None` would fail at the `active_keys` access; every currently
inactive key absent from that old release's `active_keys` property has
its association removed.  The membership test compares the key against
the property's elements, which are keys for a persisted old release but
association objects for an unpersisted one (`active_keys_raw`), in which
case no key ever matches. -/
def Release.delete_old_inactive_keys (releases : List Release)
    (self : Release) (releasecount : PyNum) :
    Except Err Release :=
  if !releasecount.truthy then .ok self
  else
    let count : Int :=
      match releasecount with
      | .pybool _ => 5
      | .pyint n => n
    match Release.walk_prev releases count.toNat (some self) with
    | .error e => .error e
    | .ok none => .error Err.attributeError
    | .ok (some old_release) =>
        let delete_keys :=
          self.inactive_keys.filter
            (fun k => !(old_release.active_keys_raw.contains (Entity.key k)))
        self.delete_assocs delete_keys

/-! ### Concrete fixtures used by counterexamples and witnesses -/

/-- Decidable equality of `Except` results, used to evaluate the model on
concrete inputs. -/
instance {e a : Type} [DecidableEq e] [DecidableEq a] :
    DecidableEq (Except e a) := fun x y =>
  match x, y with
  | .error u, .error v =>
      if h : u = v then isTrue (by rw [h]) else isFalse (by simp [h])
  | .ok u, .ok v =>
      if h : u = v then isTrue (by rw [h]) else isFalse (by simp [h])
  | .error _, .ok _ => isFalse (by simp)
  | .ok _, .error _ => isFalse (by simp)

/-- A persisted peer. -/
def peer1 : Peer := { id := some 1 }

/-- A second persisted peer. -/
def peer2 : Peer := { id := some 2 }

/-- A persisted key owned by `peer1`. -/
def key1 : KeyRec := { id := some 1, kid := 1, peer := some peer1 }

/-- A persisted key owned by `peer2`. -/
def key2 : KeyRec := { id := some 2, kid := 2, peer := some peer2 }

/-- A persisted key owned by `peer2`, distinct from `key2`. -/
def key3 : KeyRec := { id := some 3, kid := 3, peer := some peer2 }

/-- A persisted key with no owning peer. -/
def keyNoPeer : KeyRec := { id := some 4, kid := 4, peer := none }

/-- The CA key of the fixture policies. -/
def caKey : KeyRec := { id := some 9, kid := 9, peer := none }

/-- A backend fixture: no key expires, every key is 4096 bits, usable,
CA-signed, and uses algorithm `1` (named `"RSA"`). -/
def envA : Env :=
  { today := 0
    key_okay := fun _ => true
    key_expires := fun _ => none
    key_min_len := fun _ => 4096
    key_pubkey_algos := fun _ => [1]
    key_any_uid_is_signed_by := fun _ _ => true
    str_to_alg := fun s => if s = [ 'R', 'S', 'A' ] then some 1 else none
    alg_to_str := fun n => if n = 1 then some [ 'R', 'S', 'A' ] else none }

/-- A policy requiring 2048 bits, yearly expiry, algorithm `"RSA"`. -/
def policyA : Policy :=
  { ca := caKey, key_len := 2048, key_lifespan := 365,
    algorithms_str := [ 'R', 'S', 'A' ] }

/-- A policy with `key_lifespan = 0` ("no expiration required"). -/
def policyZero : Policy :=
  { ca := caKey, key_len := 2048, key_lifespan := 0,
    algorithms_str := [ 'R', 'S', 'A' ] }

/-- The policy obtained from `Policy.__init__` with an empty allowed
algorithm tuple: `algorithms_str` is the empty string. -/
def policyEmptyAlgs : Policy :=
  { ca := caKey, key_len := 2048, key_lifespan := 365, algorithms_str := [] }

/-- An unpersisted release holding `key1` active and `key2` inactive. -/
def relU : Release :=
  { id := none, date := 0, policy := policyA,
    key_associations :=
      [ { key := key1, is_active := true, policy_exception := false },
        { key := key2, is_active := false, policy_exception := true } ] }

/-- A persisted release holding `key1` active and `key2` inactive. -/
def relC : Release :=
  { id := some 1, date := 0, policy := policyA,
    key_associations :=
      [ { key := key1, is_active := true, policy_exception := false },
        { key := key2, is_active := false, policy_exception := false } ] }

/-- A persisted release holding only `key1` active (a predecessor
fixture). -/
def relA : Release :=
  { id := some 2, date := -30, policy := policyA,
    key_associations :=
      [ { key := key1, is_active := true, policy_exception := false } ] }

/-- A persisted release with no associations, governed by the
empty-algorithm policy. -/
def relE : Release :=
  { id := some 5, date := 0, policy := policyEmptyAlgs,
    key_associations := [] }

/-! ### Claims C10, C8, C9 -/

/-- **C10**: constructing a `Release` without the `inactive_keys` argument
always raises `TypeError` (the `None` default is iterated), and any call
that does pass an explicit — possibly empty — inactive-key list gets past
that point and returns a release. -/
theorem c10_init_requires_inactive_list (ml : MailingList) (date : Option Int)
    (env : Env) (active_keys : List KeyRec) (policy : Option Policy) :
    Release.init ml date env active_keys none policy = Except.error Err.typeError ∧
    ∀ inactive_keys : List KeyRec, ∃ r : Release,
      Release.init ml date env active_keys (some inactive_keys) policy = Except.ok r := by
  exact ⟨rfl, fun iks => ⟨_, rfl⟩⟩

/-- **C8**: on a release that has not been persisted (`id` unset) the
`active_keys` property yields the association objects themselves — never a
key — while `inactive_keys` yields keys, so the two properties disagree in
element type. -/
theorem c8_unpersisted_active_keys_yield_assocs (r : Release)
    (h : r.id = none) :
    (∀ e ∈ r.active_keys_raw,
        (∃ a : Assoc, e = Entity.assoc a ∧ a ∈ r.key_associations ∧ a.is_active) ∧
        ∀ k : KeyRec, e ≠ Entity.key k) ∧
    (∀ e ∈ r.inactive_keys_raw, ∃ k : KeyRec, e = Entity.key k) := by
  unfold Release.active_keys_raw Release.inactive_keys_raw
  rw [h]
  constructor
  · intro e he
    simp only [List.mem_map, List.mem_filter] at he
    obtain ⟨a, ⟨ha, hact⟩, rfl⟩ := he
    exact ⟨⟨a, rfl, ha, hact⟩, fun k hk => by cases hk⟩
  · intro e he
    simp only [List.mem_map, List.mem_filter] at he
    obtain ⟨a, _, rfl⟩ := he
    exact ⟨a.key, rfl⟩

/-- Witness for C8 at the concrete unpersisted release `relU`. -/
theorem c8_witness :
    (∀ e ∈ relU.active_keys_raw,
        (∃ a : Assoc, e = Entity.assoc a ∧ a ∈ relU.key_associations ∧ a.is_active) ∧
        ∀ k : KeyRec, e ≠ Entity.key k) ∧
    (∀ e ∈ relU.inactive_keys_raw, ∃ k : KeyRec, e = Entity.key k) :=
  c8_unpersisted_active_keys_yield_assocs relU rfl

/-- **C9**: `add_key(key, active=True)` on an unpersisted release always
fails with the unpersisted-entity `RuntimeError`, even for a key whose
peer is set: the membership test `key.peer in self` rejects any query on
an unpersisted release before looking at the peer. -/
theorem c9_add_key_unpersisted (env : Env) (r : Release) (k : KeyRec)
    (p : Peer) (check : Bool) (hr : r.id = none) (hk : k.peer = some p) :
    r.add_key env k true check = Except.error Err.runtimeUnpersisted := by
  unfold Release.add_key Release.contains_peer
  rw [hk, hr]
  rfl

/-- Witness for C9: `relU` is unpersisted and `key1` has owner `peer1`,
who holds no active key in `relU`; the addition still fails with the
unpersisted-entity error. -/
theorem c9_witness :
    relU.add_key envA key1 true true = Except.error Err.runtimeUnpersisted :=
  c9_add_key_unpersisted envA relU key1 peer1 true rfl rfl

/-! ### Claims C3 and C7 (policy checks) -/

/-- A backend fixture in which every key expires on day 1 (today is 0). -/
def envExp : Env :=
  { envA with key_expires := fun _ => some 1 }

/-- **C3, counterexample**: `policyZero` has `key_lifespan = 0 ≤ 0`, yet
`check_expiration` fails for `key1` under a backend where the key expires
tomorrow: the else-branch still compares the expiration date against
`today + key_lifespan`. -/
theorem c3_counterexample :
    policyZero.check_expiration envExp key1 = false := by
  decide

/-- **C3, amended**: for a policy with `key_lifespan ≤ 0`,
`check_expiration(key)` passes iff the key has no expiration date or its
expiration date is at most `today + key_lifespan`; a key expiring later
than that still fails. -/
theorem c3_no_expiry_required (env : Env) (p : Policy) (k : KeyRec)
    (h : p.key_lifespan ≤ 0) :
    p.check_expiration env k = true ↔
      ∀ d : Int, k.expires env = some d → d ≤ env.today + p.key_lifespan := by
  unfold Policy.check_expiration
  cases hx : k.expires env with
  | none =>
      simp only [Bool.not_eq_true']
      constructor
      · intro _ d hd
        cases hd
      · intro _
        simpa using h
  | some d =>
      simp only [Bool.not_eq_true', decide_eq_false_iff_not, not_lt]
      constructor
      · intro hle d2 hd2
        injection hd2 with hdd
        omega
      · intro hall
        have := hall d rfl
        omega

/-- Witness for C3 (amended) at `policyZero` and the non-expiring backend
`envA`. -/
theorem c3_witness :
    policyZero.check_expiration envA key1 = true ↔
      ∀ d : Int, key1.expires envA = some d →
        d ≤ envA.today + policyZero.key_lifespan :=
  c3_no_expiry_required envA policyZero key1 (by decide)

/-- **C7**: for a policy whose allowed-algorithm tuple was empty —
`Policy.__init__` then stores the empty `algorithms_str` — the
`algorithms` property evaluates `str_to_alg[""]` (because
`"".split(",") == [""]`), which raises `KeyError` whenever the empty
string is not a registered algorithm name; so `check_algorithms` raises
instead of passing, and its empty-set no-restriction branch is
unreachable from such a policy. -/
theorem c7_empty_algorithms_raises (env : Env) (p : Policy) (k : KeyRec)
    (hp : p.algorithms_str = [])
    (henv : env.str_to_alg [] = none) :
    p.check_algorithms env k = Except.error Err.keyError := by
  unfold Policy.check_algorithms Policy.algorithms
  rw [hp]
  show (match str_algs env (pySplit ',' []) with
        | .error e => Except.error e
        | .ok algorithms =>
            if algorithms = ∅ then .ok true
            else .ok (decide ((env.key_pubkey_algos k.kid).toFinset ⊆ algorithms)))
      = Except.error Err.keyError
  have h1 : pySplit ',' ([] : PyStr) = [[]] := rfl
  rw [h1]
  show (match (match env.str_to_alg [] with
               | none => Except.error Err.keyError
               | some a => (str_algs env []).map (fun s => insert a s)) with
        | .error e => Except.error e
        | .ok algorithms =>
            if algorithms = ∅ then .ok true
            else .ok (decide ((env.key_pubkey_algos k.kid).toFinset ⊆ algorithms)))
      = Except.error Err.keyError
  rw [henv]

/-- Witness for C7: the concrete empty-tuple policy `policyEmptyAlgs`
under the fixture backend (whose name table has no entry for `""`). -/
theorem c7_witness :
    policyEmptyAlgs.check_algorithms envA key1 = Except.error Err.keyError :=
  c7_empty_algorithms_raises envA policyEmptyAlgs key1 rfl (by decide)

/-! ### Claim C4 (deactivate_invalid) -/

/-- **C4**: `deactivate_invalid` rewrites each association in place: the
key and the `policy_exception` flag are untouched, and the new
`is_active` is the old one AND-ed with the backend usability signal and
the CA-signature test.  Hence it deactivates exactly the active
associations failing one of the two structural checks, never flips an
association back to active, leaves inactive associations unchanged, and
its effect is independent of `policy_exception`. -/
theorem c4_deactivate_invalid (env : Env) (r : Release) (i : Nat) (a : Assoc)
    (h : r.key_associations.get? i = some a) :
    (r.deactivate_invalid env).key_associations.length =
        r.key_associations.length ∧
    (r.deactivate_invalid env).key_associations.get? i =
      some { key := a.key
             is_active := a.is_active && a.key.okay env &&
               a.key.is_signed_by env r.policy.ca
             policy_exception := a.policy_exception } := by
  unfold Release.deactivate_invalid
  refine ⟨by simp, ?_⟩
  rw [List.get?_map, h]
  obtain ⟨k, act, pe⟩ := a
  cases act <;> cases hok : k.okay env <;> cases hsig : k.is_signed_by env r.policy.ca <;>
    simp [hok, hsig]

/-- Witness for C4 at the concrete release `relC` and index 0. -/
theorem c4_witness :
    (relC.deactivate_invalid envA).key_associations.length =
        relC.key_associations.length ∧
    (relC.deactivate_invalid envA).key_associations.get? 0 =
      some { key := key1
             is_active := true && KeyRec.okay envA key1 &&
               KeyRec.is_signed_by envA key1 relC.policy.ca
             policy_exception := false } :=
  c4_deactivate_invalid envA relC 0
    { key := key1, is_active := true, policy_exception := false } rfl

/-! ### Claims C1 and C6 (diff) -/

/-- The finset of a mapped list is the image of the finset. -/
theorem toFinset_map_eq_image {α β : Type} [DecidableEq α] [DecidableEq β]
    (f : α → β) (l : List α) : (l.map f).toFinset = l.toFinset.image f := by
  ext b
  simp

/-- **C1, counterexample**: `relC` carries the inactive key `key2`;
diffing `relC` against itself returns `keys_out = {key2} ≠ ∅`, because
`keys_prev` includes the release's own inactive keys while `keys_curr`
does not. -/
theorem c1_counterexample : (relC.diff relC).keys_out ≠ ∅ := by
  decide

/-- **C1, amended**: diffing a release against itself yields empty
`keys_in`, `peers_joined`, `peers_changed` and `peers_left`, while
`keys_out` is exactly the release's inactive-key set minus its active-key
set — empty precisely when the release has no properly inactive key. -/
theorem c1_diff_self (r : Release) (hid : r.id ≠ none)
    (hp : ∀ a ∈ r.key_associations, a.key.peer.isSome) :
    r.diff r =
      { keys_in := ∅
        keys_out := r.inactive_keys.toFinset \ r.active_keys.toFinset
        peers_joined := ∅
        peers_changed := ∅
        peers_left := ∅ } := by
  have hin : r.active_keys.toFinset \
      (r.active_keys ++ r.inactive_keys).toFinset = ∅ := by
    rw [Finset.sdiff_eq_empty_iff_subset, List.toFinset_append]
    exact Finset.subset_union_left
  simp only [Release.diff, DiffResult.mk.injEq]
  refine ⟨hin, ?_, ?_, ?_, ?_⟩
  · ext k
    simp only [List.toFinset_append, Finset.mem_sdiff, Finset.mem_union]
    tauto
  · rw [toFinset_map_eq_image]
    exact Finset.sdiff_self _
  · rw [hin]
    simp
  · rw [toFinset_map_eq_image]
    exact Finset.sdiff_self _

/-- Witness for C1 (amended) at the concrete release `relC`. -/
theorem c1_witness :
    relC.diff relC =
      { keys_in := ∅
        keys_out := relC.inactive_keys.toFinset \ relC.active_keys.toFinset
        peers_joined := ∅
        peers_changed := ∅
        peers_left := ∅ } :=
  c1_diff_self relC (by decide) (by decide)

/-- The peer derivation as the specification sentence describes it:
`peers_prev` taken as the image of the whole baseline `keys_prev`
(other's active keys plus self's inactive keys) under the owning-peer
map, so that `peers_left = peers_prev − peers_curr`.  This definition
follows the spec's words, for comparison with `Release.diff`, which
derives `peers_prev` from `other.active_keys` alone. -/
def diff_spec_peers_left (self other : Release) : Finset (Option Peer) :=
  ((other.active_keys ++ self.inactive_keys).toFinset.image KeyRec.peer) \
    (self.active_keys.toFinset.image KeyRec.peer)

/-- **C6, counterexample**: in `relC` (active `key1`, inactive `key2`,
key owners `peer1` and `peer2`) diffed against `relA` (active `key1`),
the code's `peers_left` is empty, while the claimed derivation — peers of
`keys_prev` minus peers of `keys_curr` — contains `peer2`, whose only
baseline key is the inactive `key2` of self. -/
theorem c6_counterexample :
    (relC.diff relA).peers_left = ∅ ∧
    diff_spec_peers_left relC relA = {some peer2} := by
  decide

/-- **C6, amended**: in `Release.diff(other)` the sets `peers_curr`,
`peers_in`, `peers_out` are the images of their key sets under the
owning-peer map, but `peers_prev` is the image of `other.active_keys`
only — not of `keys_prev`.  Membership is therefore: `peers_joined` are
owners of current active keys owning no active key of `other`;
`peers_left` are owners of `other`'s active keys owning no current
active key (so a peer whose only baseline key is an inactive key of self
is *not* in `peers_left`); `peers_changed` are common owners of
`keys_in` and `keys_out`. -/
theorem c6_peer_sets (self other : Release)
    (hs : self.id ≠ none) (ho : other.id ≠ none)
    (hp : ∀ a ∈ self.key_associations, a.key.peer.isSome)
    (hq : ∀ a ∈ other.key_associations, a.key.peer.isSome) :
    (∀ q : Option Peer,
       q ∈ (self.diff other).peers_joined ↔
         ((∃ k ∈ self.active_keys, k.peer = q) ∧
          ¬∃ k ∈ other.active_keys, k.peer = q)) ∧
    (∀ q : Option Peer,
       q ∈ (self.diff other).peers_left ↔
         ((∃ k ∈ other.active_keys, k.peer = q) ∧
          ¬∃ k ∈ self.active_keys, k.peer = q)) ∧
    (∀ q : Option Peer,
       q ∈ (self.diff other).peers_changed ↔
         ((∃ k ∈ (self.diff other).keys_in, k.peer = q) ∧
          ∃ k ∈ (self.diff other).keys_out, k.peer = q)) := by
  refine ⟨?_, ?_, ?_⟩ <;> intro q <;>
    simp only [Release.diff, Finset.mem_sdiff, Finset.mem_inter,
      Finset.mem_image, List.mem_toFinset, List.mem_map]

/-- Witness for C6 (amended) at the concrete releases `relC` and `relA`. -/
theorem c6_witness :
    (∀ q : Option Peer,
       q ∈ (relC.diff relA).peers_joined ↔
         ((∃ k ∈ relC.active_keys, k.peer = q) ∧
          ¬∃ k ∈ relA.active_keys, k.peer = q)) ∧
    (∀ q : Option Peer,
       q ∈ (relC.diff relA).peers_left ↔
         ((∃ k ∈ relA.active_keys, k.peer = q) ∧
          ¬∃ k ∈ relC.active_keys, k.peer = q)) ∧
    (∀ q : Option Peer,
       q ∈ (relC.diff relA).peers_changed ↔
         ((∃ k ∈ (relC.diff relA).keys_in, k.peer = q) ∧
          ∃ k ∈ (relC.diff relA).keys_out, k.peer = q)) :=
  c6_peer_sets relC relA (by decide) (by decide) (by decide) (by decide)

/-! ### Claim C5 (add_key) -/

/-- **C5, counterexample**: on the persisted release `relE` (no
associations, so `key3`'s peer holds no active key) with a key that does
have an owning peer, neither stated precondition is violated — yet no
association is created: `relE`'s policy was built from an empty allowed
algorithm tuple, and the advisory `Policy.check` raises `KeyError` (from
`Policy.algorithms`) before the insertion. -/
theorem c5_counterexample :
    relE.add_key envA key3 true true = Except.error Err.keyError := by
  decide

/-- **C5, amended**: `add_key(key, active=True)`: a key without an owning
peer fails with `ValueError` and creates no association; a key whose
(persisted) peer already holds an active key in this (persisted) release
fails with `ValueError` and creates no association; when neither holds
and the policy's algorithm column parses, the advisory policy check does
not block, and the new active association is appended — but an exception
escaping the advisory check (empty algorithm column) does block the
insertion. -/
theorem c5_add_key (env : Env) (r : Release) (k : KeyRec) :
    (k.peer = none → r.add_key env k true true = Except.error Err.valueNoPeer) ∧
    (∀ p pid, k.peer = some p → p.id = some pid → r.id ≠ none →
      (r.key_associations.filter
        (fun a => a.is_active && a.key.peer_id == some pid)).length = 1 →
      r.add_key env k true true = Except.error Err.valuePeerActive) ∧
    (∀ p pid rid A, k.peer = some p → p.id = some pid → r.id = some rid →
      (r.key_associations.filter
        (fun a => a.is_active && a.key.peer_id == some pid)).length = 0 →
      r.policy.algorithms env = Except.ok A →
      r.add_key env k true true =
        Except.ok { r with key_associations := r.key_associations ++
          [{ key := k, is_active := true, policy_exception := false }] }) := by
  refine ⟨?_, ?_, ?_⟩
  · intro h
    unfold Release.add_key
    rw [h]
  · intro p pid hk hp hr hcount
    cases hr2 : r.id with
    | none => exact absurd hr2 hr
    | some rid =>
        simp only [Release.add_key, Release.contains_peer, hk, hr2, hp, hcount]
        rfl
  · intro p pid rid A hk hp hr hcount halg
    simp only [Release.add_key, Release.contains_peer, Policy.check,
      Policy.check_algorithms, hk, hr, hp, hcount, halg]
    by_cases hA : A = ∅ <;> simp [hA, Except.map]

/-- Witness for C5 (amended), first conjunct: adding the peerless
`keyNoPeer` to `relC` fails with the no-peer `ValueError`. -/
theorem c5_witness :
    relC.add_key envA keyNoPeer true true = Except.error Err.valueNoPeer :=
  (c5_add_key envA relC keyNoPeer).1 rfl

/-! ### Claim C2 (delete_old_inactive_keys) -/

/-- In a duplicate-free list, the element at position `i` has index `i`. -/
theorem indexOf?_of_get? {α : Type} [DecidableEq α] :
    ∀ {l : List α}, l.Nodup → ∀ {i : Nat} {x : α}, l.get? i = some x →
      l.indexOf? x = some i := by
  intro l
  induction l with
  | nil =>
      intro _ i x h
      cases i <;> cases h
  | cons y t ih =>
      intro hnd i x h
      rw [List.indexOf?_cons]
      cases i with
      | zero =>
          cases h
          simp
      | succ m =>
          have hxt : x ∈ t := List.get?_mem h
          have hyx : (y == x) = false := by
            rw [beq_eq_false_iff_ne]
            intro he
            exact (List.nodup_cons.mp hnd).1 (he ▸ hxt)
          rw [hyx]
          simp [ih (List.nodup_cons.mp hnd).2 h]

/-- Walking `n` times through `prev` from the release at position `i` of a
duplicate-free release sequence lands on position `i - n`. -/
theorem walk_prev_ok {releases : List Release} (hnd : releases.Nodup) :
    ∀ (n : Nat) {i : Nat} {x : Release}, n ≤ i → releases.get? i = some x →
      Release.walk_prev releases n (some x) = Except.ok (releases.get? (i - n)) := by
  intro n
  induction n with
  | zero =>
      intro i x _ h
      rw [Nat.sub_zero, h]
      rfl
  | succ m ih =>
      intro i x hle h
      have hpos : 0 < i := Nat.lt_of_lt_of_le (Nat.succ_pos m) hle
      have hlen : i < releases.length := (List.get?_eq_some.mp h).1
      have hlt : i - 1 < releases.length := by omega
      obtain ⟨x2, h2⟩ : ∃ x2, releases.get? (i - 1) = some x2 :=
        ⟨releases.get ⟨i - 1, hlt⟩, List.get?_eq_get hlt⟩
      simp only [Release.walk_prev, Release.prev, indexOf?_of_get? hnd h]
      rw [if_pos hpos, h2]
      rw [ih (by omega) h2]
      have harith : i - 1 - m = i - (m + 1) := by omega
      rw [harith]

/-- Filtering a duplicate-free list down to the elements equal to one of
its members yields exactly that member. -/
theorem filter_beq_singleton {α : Type} [DecidableEq α] :
    ∀ {l : List α}, l.Nodup → ∀ {a : α}, a ∈ l →
      l.filter (fun x => x == a) = [a] := by
  intro l
  induction l with
  | nil =>
      intro _ a ha
      cases ha
  | cons b t ih =>
      intro hnd a ha
      rw [List.filter_cons]
      by_cases hba : b = a
      · subst hba
        rw [if_pos (by simp)]
        have hnot : t.filter (fun x => x == b) = [] := by
          rw [List.filter_eq_nil]
          intro x hx
          simp only [beq_iff_eq]
          intro he
          exact (List.nodup_cons.mp hnd).1 (he ▸ hx)
        rw [hnot]
      · have hat : a ∈ t := by
          cases List.mem_cons.mp ha with
          | inl h => exact absurd h.symm hba
          | inr h => exact h
        rw [if_neg (by simp [hba])]
        exact ih (List.nodup_cons.mp hnd).2 hat

/-- `_get_assoc` returns exactly the association of a key present in the
release, on both of its branches: the identity scan (unpersisted key or
release) and the row query by key id (which needs the association keys'
ids distinct and present). -/
theorem get_assoc_ok (r : Release)
    (hkeys : (r.key_associations.map Assoc.key).Nodup)
    (hdb : r.id = none ∨
      ((r.key_associations.map (fun a => a.key.id)).Nodup ∧
        ∀ a ∈ r.key_associations, a.key.id ≠ none))
    (a : Assoc) (ha : a ∈ r.key_associations) :
    r._get_assoc a.key = Except.ok a := by
  have hinj := List.inj_on_of_nodup_map hkeys
  have hassocs_nodup : r.key_associations.Nodup := List.Nodup.of_map _ hkeys
  unfold Release._get_assoc
  by_cases hcond : a.key.id = none ∨ r.id = none
  · rw [if_pos hcond]
    have hfind : r.key_associations.find? (fun x => x.key == a.key) = some a := by
      cases hf : r.key_associations.find? (fun x => x.key == a.key) with
      | none =>
          exfalso
          have hno := List.find?_eq_none.mp hf a ha
          simp at hno
      | some af =>
          have hafmem := List.mem_of_find?_eq_some hf
          have hafkey : af.key = a.key := by simpa using List.find?_some hf
          rw [hinj hafmem ha hafkey]
    rw [hfind]
  · rw [if_neg hcond]
    push_neg at hcond
    obtain ⟨hkid, hrid⟩ := hcond
    have hids : (r.key_associations.map (fun a => a.key.id)).Nodup ∧
        ∀ a ∈ r.key_associations, a.key.id ≠ none := by
      cases hdb with
      | inl h => exact absurd h hrid
      | inr h => exact h
    have hidinj := List.inj_on_of_nodup_map hids.1
    have hfe : r.key_associations.filter (fun x => x.key.id == a.key.id) =
        r.key_associations.filter (fun x => x == a) := by
      apply List.filter_congr
      intro x hx
      by_cases hxa : x = a
      · subst hxa
        simp
      · have hne : x.key.id ≠ a.key.id := fun he => hxa (hidinj hx ha he)
        simp [hxa, hne]
    rw [hfe, filter_beq_singleton hassocs_nodup ha]

/-- The deletion loop, on a release whose association keys are
duplicate-free (and, when persisted, whose association key ids are
distinct and present), given a duplicate-free list of keys all present in
the release, removes exactly the listed keys' associations. -/
theorem delete_assocs_eq_filter :
    ∀ (ks : List KeyRec) (r : Release),
      (r.key_associations.map Assoc.key).Nodup →
      (r.id = none ∨
        ((r.key_associations.map (fun a => a.key.id)).Nodup ∧
          ∀ a ∈ r.key_associations, a.key.id ≠ none)) →
      ks.Nodup →
      (∀ k ∈ ks, k ∈ r.key_associations.map Assoc.key) →
      r.delete_assocs ks =
        Except.ok { r with key_associations :=
          r.key_associations.filter (fun a => !(ks.contains a.key)) } := by
  intro ks
  induction ks with
  | nil =>
      intro r _ _ _ _
      show Except.ok r = _
      have hfe : r.key_associations.filter
          (fun a => !(List.contains [] a.key)) = r.key_associations := by
        rw [show (fun a : Assoc => !(List.contains [] a.key)) =
          (fun _ : Assoc => true) from rfl]
        exact List.filter_true _
      rw [hfe]
  | cons k ks ih =>
      intro r hkeys hdb hnd hmem
      obtain ⟨a0, ha0, hk0⟩ : ∃ a0 ∈ r.key_associations, a0.key = k := by
        have hm := hmem k (List.mem_cons_self k ks)
        simpa [List.mem_map] using hm
      have hget : r._get_assoc k = Except.ok a0 := by
        rw [← hk0]
        exact get_assoc_ok r hkeys hdb a0 ha0
      have hassocs_nodup : r.key_associations.Nodup :=
        List.Nodup.of_map _ hkeys
      have herase : r.key_associations.erase a0 =
          r.key_associations.filter (fun x => x != a0) :=
        List.Nodup.erase_eq_filter hassocs_nodup a0
      have hknotks : k ∉ ks := (List.nodup_cons.mp hnd).1
      have hinj := List.inj_on_of_nodup_map hkeys
      simp only [Release.delete_assocs]
      rw [hget]
      show ({ r with key_associations :=
        r.key_associations.erase a0 }.delete_assocs ks) = _
      rw [ih { r with key_associations := r.key_associations.erase a0 }
        (List.Nodup.sublist (List.Sublist.map _ (List.erase_sublist _ _)) hkeys)
        ?db (List.nodup_cons.mp hnd).2 ?memtail]
      case db =>
        cases hdb with
        | inl h => exact Or.inl h
        | inr h =>
            refine Or.inr ⟨?_, ?_⟩
            · exact List.Nodup.sublist
                (List.Sublist.map _ (List.erase_sublist _ _)) h.1
            · intro b hb
              exact h.2 b (List.mem_of_mem_erase hb)
      case memtail =>
        intro k2 hk2
        obtain ⟨b, hb, hbk⟩ : ∃ b ∈ r.key_associations, b.key = k2 := by
          have hm := hmem k2 (List.mem_cons_of_mem k hk2)
          simpa [List.mem_map] using hm
        have hk2ne : k2 ≠ k := fun he => hknotks (he ▸ hk2)
        have hbne : (b != a0) = true := by
          rw [bne_iff_ne]
          intro he
          exact hk2ne (by rw [← hbk, he, hk0])
        refine List.mem_map.mpr ⟨b, ?_, hbk⟩
        rw [herase]
        exact List.mem_filter.mpr ⟨hb, hbne⟩
      congr 1
      rw [herase, List.filter_filter]
      have hfield : List.filter (fun a => !ks.contains a.key && a != a0)
            r.key_associations =
          List.filter (fun a => !(k :: ks).contains a.key)
            r.key_associations := by
        apply List.filter_congr
        intro a hamem
        by_cases h1 : a.key = k
        · have haeq : a = a0 := hinj hamem ha0 (by rw [h1, hk0])
          subst haeq
          simp [h1]
        · have hane : (a != a0) = true := by
            rw [bne_iff_ne]
            intro he
            exact h1 (by rw [he, hk0])
          simp [hane, h1]
      rw [hfield]

/-- Membership of a key entity in a key-mapped entity list mirrors plain
key membership. -/
theorem contains_map_entity_key (l : List KeyRec) (k : KeyRec) :
    (l.map Entity.key).contains (Entity.key k) = l.contains k := by
  induction l with
  | nil => rfl
  | cons b t ih =>
      simp only [List.map_cons, List.contains_cons, ih]
      congr 1
      by_cases h : k = b
      · subst h
        simp
      · rw [beq_eq_false_iff_ne.mpr (fun he => h (Entity.key.inj he)),
          beq_eq_false_iff_ne.mpr h]

/-- A key entity is never found among association entities: the Python
membership test compares a key object against association objects. -/
theorem contains_map_entity_assoc (l : List Assoc) (k : KeyRec) :
    (l.map Entity.assoc).contains (Entity.key k) = false := by
  induction l with
  | nil => rfl
  | cons b t ih =>
      simp only [List.map_cons, List.contains_cons, ih]
      rw [beq_eq_false_iff_ne.mpr (fun he => Entity.noConfusion he)]
      rfl

/-- **C2, amended**: for `n ≥ 1`, on a Release whose association keys are
duplicate-free (with distinct, present key ids when the release is
persisted) sitting at position `idx ≥ n` of the mailing list's
duplicate-free release sequence: when the release `n` predecessors back
is persisted, `delete_old_inactive_keys(n)` removes exactly the
associations of keys that are inactive in the current release and absent
from that old release's active keys — active associations, and inactive
associations whose key is still active there, survive unchanged; when
that old release is not persisted, its `active_keys` property yields
association objects, the membership test never matches, and every
inactive association is removed.  (For `n = 0` the feature is disabled —
see the counterexample.) -/
theorem c2_delete_old_inactive_keys (releases : List Release)
    (self old : Release) (n idx : Nat)
    (hn : 1 ≤ n)
    (hnd : releases.Nodup)
    (hself : releases.get? idx = some self)
    (hle : n ≤ idx)
    (hold : releases.get? (idx - n) = some old)
    (hkeys : (self.key_associations.map Assoc.key).Nodup)
    (hdb : self.id = none ∨
      ((self.key_associations.map (fun a => a.key.id)).Nodup ∧
        ∀ a ∈ self.key_associations, a.key.id ≠ none)) :
    (old.id ≠ none →
      Release.delete_old_inactive_keys releases self (PyNum.pyint (n : Int)) =
        Except.ok { self with key_associations := self.key_associations.filter (fun a => a.is_active || old.active_keys.contains a.key) }) ∧
    (old.id = none →
      Release.delete_old_inactive_keys releases self (PyNum.pyint (n : Int)) =
        Except.ok { self with key_associations := self.key_associations.filter (fun a => a.is_active) }) := by
  have htr : (PyNum.pyint (n : Int)).truthy = true := by
    simp only [PyNum.truthy, bne_iff_ne, ne_eq, decide_not]
    simp
    omega
  have hinactive_nodup : self.inactive_keys.Nodup := by
    unfold Release.inactive_keys
    exact List.Nodup.sublist (List.Sublist.map _ (List.filter_sublist _)) hkeys
  have hinj := List.inj_on_of_nodup_map hkeys
  have hmem_inactive : ∀ a ∈ self.key_associations,
      (a.key ∈ self.inactive_keys ↔ a.is_active = false) := by
    intro a hamem
    constructor
    · intro hmi
      obtain ⟨b, hb, hbk⟩ := List.mem_map.mp hmi
      have hbmem : b ∈ self.key_associations := (List.mem_filter.mp hb).1
      have hbact := (List.mem_filter.mp hb).2
      have hba : b = a := hinj hbmem hamem hbk
      rw [← hba]
      simpa using hbact
    · intro hact
      exact List.mem_map.mpr
        ⟨a, List.mem_filter.mpr ⟨hamem, by simp [hact]⟩, rfl⟩
  have hdk_mem0 : ∀ k ∈ self.inactive_keys,
      k ∈ self.key_associations.map Assoc.key := by
    intro k hk
    unfold Release.inactive_keys at hk
    obtain ⟨b, hb, hbk⟩ := List.mem_map.mp hk
    exact List.mem_map.mpr ⟨b, (List.mem_filter.mp hb).1, hbk⟩
  constructor
  · intro holdid
    obtain ⟨oid, hoid⟩ := Option.ne_none_iff_exists'.mp holdid
    unfold Release.delete_old_inactive_keys
    rw [htr]
    show (match Release.walk_prev releases ((n : Int)).toNat (some self) with
          | .error e => Except.error e
          | .ok none => Except.error Err.attributeError
          | .ok (some old_release) =>
              self.delete_assocs (self.inactive_keys.filter
                (fun k => !(old_release.active_keys_raw.contains
                  (Entity.key k))))) = _
    rw [Int.toNat_natCast, walk_prev_ok hnd n hle hself, hold]
    show self.delete_assocs (self.inactive_keys.filter
          (fun k => !(old.active_keys_raw.contains (Entity.key k)))) = _
    have hraw : ∀ k : KeyRec,
        old.active_keys_raw.contains (Entity.key k) =
          old.active_keys.contains k := by
      intro k
      unfold Release.active_keys_raw
      rw [hoid]
      exact contains_map_entity_key _ _
    have hpred : self.inactive_keys.filter
          (fun k => !(old.active_keys_raw.contains (Entity.key k))) =
        self.inactive_keys.filter
          (fun k => !(old.active_keys.contains k)) := by
      apply List.filter_congr
      intro k _
      rw [hraw]
    rw [hpred]
    have hdk_nodup : (self.inactive_keys.filter
        (fun k => !(old.active_keys.contains k))).Nodup :=
      List.Nodup.sublist (List.filter_sublist _) hinactive_nodup
    have hdk_mem : ∀ k ∈ self.inactive_keys.filter
        (fun k => !(old.active_keys.contains k)),
        k ∈ self.key_associations.map Assoc.key :=
      fun k hk => hdk_mem0 k (List.mem_filter.mp hk).1
    rw [delete_assocs_eq_filter _ self hkeys hdb hdk_nodup hdk_mem]
    congr 1
    have hfield : self.key_associations.filter
          (fun a => !((self.inactive_keys.filter
            (fun k => !(old.active_keys.contains k))).contains a.key)) =
        self.key_associations.filter
          (fun a => a.is_active || old.active_keys.contains a.key) := by
      apply List.filter_congr
      intro a hamem
      cases ha : a.is_active with
      | true =>
          have hnotin : a.key ∉ self.inactive_keys.filter
              (fun k => !(old.active_keys.contains k)) := by
            intro hin
            have hfa := (hmem_inactive a hamem).mp (List.mem_filter.mp hin).1
            rw [ha] at hfa
            exact Bool.noConfusion hfa
          simp [List.elem_iff, hnotin]
          refine Or.inl fun hmi => ?_
          have hfa := (hmem_inactive a hamem).mp hmi
          rw [ha] at hfa
          exact Bool.noConfusion hfa
      | false =>
          cases hc : old.active_keys.contains a.key with
          | true =>
              have hnotin : a.key ∉ self.inactive_keys.filter
                  (fun k => !(old.active_keys.contains k)) := by
                intro hin
                have hpred2 := (List.mem_filter.mp hin).2
                rw [hc] at hpred2
                cases hpred2
              simp [List.elem_iff, hnotin]
              exact Or.inr (List.elem_iff.mp hc)
          | false =>
              have hin : a.key ∈ self.inactive_keys.filter
                  (fun k => !(old.active_keys.contains k)) :=
                List.mem_filter.mpr
                  ⟨(hmem_inactive a hamem).mpr ha, by rw [hc]; rfl⟩
              simp [List.elem_iff, hin]
              refine ⟨(hmem_inactive a hamem).mpr ha, fun hm => ?_⟩
              have h1 : old.active_keys.contains a.key = true :=
                List.elem_iff.mpr hm
              rw [hc] at h1
              exact Bool.noConfusion h1
    rw [hfield]
  · intro holdid
    unfold Release.delete_old_inactive_keys
    rw [htr]
    show (match Release.walk_prev releases ((n : Int)).toNat (some self) with
          | .error e => Except.error e
          | .ok none => Except.error Err.attributeError
          | .ok (some old_release) =>
              self.delete_assocs (self.inactive_keys.filter
                (fun k => !(old_release.active_keys_raw.contains
                  (Entity.key k))))) = _
    rw [Int.toNat_natCast, walk_prev_ok hnd n hle hself, hold]
    show self.delete_assocs (self.inactive_keys.filter
          (fun k => !(old.active_keys_raw.contains (Entity.key k)))) = _
    have hraw0 : ∀ k : KeyRec,
        old.active_keys_raw.contains (Entity.key k) = false := by
      intro k
      unfold Release.active_keys_raw
      rw [holdid]
      exact contains_map_entity_assoc _ _
    have hpred : self.inactive_keys.filter
          (fun k => !(old.active_keys_raw.contains (Entity.key k))) =
        self.inactive_keys := by
      have hcg : ∀ k ∈ self.inactive_keys,
          (!(old.active_keys_raw.contains (Entity.key k))) = true := by
        intro k _
        rw [hraw0 k]
        rfl
      rw [@List.filter_congr _ _ (fun _ => true) _ hcg, List.filter_true]
    rw [hpred]
    rw [delete_assocs_eq_filter _ self hkeys hdb hinactive_nodup hdk_mem0]
    congr 1
    have hfield2 : self.key_associations.filter
          (fun a => !(self.inactive_keys.contains a.key)) =
        self.key_associations.filter (fun a => a.is_active) := by
      apply List.filter_congr
      intro a hamem
      cases ha : a.is_active with
      | true =>
          have hnotin : a.key ∉ self.inactive_keys := by
            intro hmi
            have hfa := (hmem_inactive a hamem).mp hmi
            rw [ha] at hfa
            exact Bool.noConfusion hfa
          have hc : self.inactive_keys.contains a.key = false := by
            cases hcc : self.inactive_keys.contains a.key with
            | false => rfl
            | true => exact absurd (List.elem_iff.mp hcc) hnotin
          rw [hc]
          rfl
      | false =>
          have hin : a.key ∈ self.inactive_keys :=
            (hmem_inactive a hamem).mpr ha
          have hc : self.inactive_keys.contains a.key = true :=
            List.elem_iff.mpr hin
          rw [hc]
          rfl
    rw [hfield2]

/-- **C2, counterexample**: with `n = 0` every release trivially has "at
least n predecessor releases", and the release 0 predecessors back is the
release itself; `relU` holds the inactive `key2`, which is not among its
own active keys, so the claim demands that `key2`'s association be
removed — but `0` is falsy in Python, so the code returns with no
deletion at all. -/
theorem c2_counterexample :
    Release.delete_old_inactive_keys [relU] relU (PyNum.pyint 0) =
        Except.ok relU ∧
    relU.inactive_keys = [key2] ∧ key2 ∉ relU.active_keys := by
  decide

/-- Witness for C2 (amended): pruning `relU` (active `key1`, inactive
`key2`) with depth 1 against the history `[relA, relU]` keeps the active
association and drops `key2`'s, since `key2` is not active in `relA`. -/
theorem c2_witness :
    Release.delete_old_inactive_keys [relA, relU] relU
        (PyNum.pyint ((1 : Nat) : Int)) =
      Except.ok { relU with key_associations := relU.key_associations.filter (fun a => a.is_active || relA.active_keys.contains a.key) } :=
  (c2_delete_old_inactive_keys [relA, relU] relU relA 1 1 (by decide)
    (by decide) rfl (by decide) rfl (by decide) (Or.inl rfl)).1 (by decide)
